import Mathlib

/-!
Verification of the vending-machine service (`src/app.py`).

Shallow embedding of the business logic of `app.py`: the greedy change
calculator (`calculate_change`), the session ledger operations
(`insert_money`, `purchase`, `return_change`) and the transaction-log
entry construction (`log_transaction`).

Monetary amounts are represented in integer cents: the Python code keeps
floats but re-rounds to two decimal places (`round(x, 2)`) at every
subtraction, so on the two-decimal grid the float arithmetic coincides
with exact integer-cent arithmetic and `round(·, 2)` is the identity.
Rupee value `v` is modelled as the integer `100 * v`.
-/

namespace VendingMachine

/-- Notes `NOTES = [100, 50, 25, 20]` from `app.py`, in cents. -/
def NOTES : List Nat := [10000, 5000, 2500, 2000]

/-- Coins `COINS = [10, 5, 1, 0.50, 0.25, 0.10, 0.05]` from `app.py`, in cents. -/
def COINS : List Nat := [1000, 500, 100, 50, 25, 10, 5]

/-- The iteration order of `calculate_change`: `sorted(NOTES + COINS, reverse=True)`.
`NOTES + COINS` is already strictly descending, so the sort is the identity
and the order is the concatenation itself. -/
def DENOMS : List Nat := NOTES ++ COINS

/-- One iteration of the loop body of `calculate_change` (`app.py` lines 269-273):
when `remaining >= denom` it records `count = int(remaining / denom)` and sets
`remaining = round(remaining - count * denom, 2)`; in cents the rounding is the
identity.  The accumulator is the pair (breakdown so far, remaining). -/
def changeStep (acc : List (Nat × Nat) × Nat) (denom : Nat) : List (Nat × Nat) × Nat :=
  if denom ≤ acc.2 then
    (acc.1 ++ [(denom, acc.2 / denom)], acc.2 - acc.2 / denom * denom)
  else
    acc

/-- Function `calculate_change` (`app.py` lines 265-275): greedy breakdown of `amount`
(in cents) over the denominations in descending order.  The returned
association list is the insertion-ordered Python dict `change_breakdown`. -/
def calculate_change (amount : Nat) : List (Nat × Nat) :=
  (DENOMS.foldl changeStep ([], amount)).1

/-- Total `sum(denomination * count)` over a breakdown. -/
def changeSum (l : List (Nat × Nat)) : Nat :=
  (l.map fun p => p.1 * p.2).sum

/-- An amount is representable when it is a sum of configured denominations. -/
def Representable (a : Nat) : Prop :=
  ∃ l : List (Nat × Nat), (∀ p ∈ l, p.1 ∈ DENOMS) ∧ changeSum l = a

/-- One step of the algorithm exactly as §4.1 of the spec words it:
`count = floor(remaining / d)`, record if `count > 0`,
`remaining = round(remaining - count*d, 2)`. -/
def greedyStepSpec (acc : List (Nat × Nat) × Nat) (denom : Nat) : List (Nat × Nat) × Nat :=
  (if 0 < acc.2 / denom then acc.1 ++ [(denom, acc.2 / denom)] else acc.1,
   acc.2 - acc.2 / denom * denom)

/-- The §4.1 algorithm, modelled from the spec's words, to be compared with
`calculate_change` as embedded from the source. -/
def greedySpec (amount : Nat) : List (Nat × Nat) :=
  (DENOMS.foldl greedyStepSpec ([], amount)).1

theorem changeStep_sum (acc : List (Nat × Nat) × Nat) (d : Nat) :
    changeSum (changeStep acc d).1 + (changeStep acc d).2 = changeSum acc.1 + acc.2 := by
  by_cases h : d ≤ acc.2
  · have hle : acc.2 / d * d ≤ acc.2 := Nat.div_mul_le_self acc.2 d
    simp only [changeStep, if_pos h, changeSum, List.map_append, List.map_cons, List.map_nil,
      List.sum_append, List.sum_cons, List.sum_nil]
    rw [Nat.mul_comm d (acc.2 / d)]
    omega
  · simp only [changeStep, if_neg h]

theorem foldl_changeStep_sum (l : List Nat) (acc : List (Nat × Nat) × Nat) :
    changeSum (l.foldl changeStep acc).1 + (l.foldl changeStep acc).2 =
      changeSum acc.1 + acc.2 := by
  induction l generalizing acc with
  | nil => rfl
  | cons d rest ih =>
    rw [List.foldl_cons, ih, changeStep_sum]

theorem changeStep_dvd (acc : List (Nat × Nat) × Nat) (d : Nat)
    (hd : 5 ∣ d) (hr : 5 ∣ acc.2) : 5 ∣ (changeStep acc d).2 := by
  by_cases h : d ≤ acc.2
  · simp only [changeStep, if_pos h]
    exact Nat.dvd_sub' hr (Dvd.dvd.mul_left hd _)
  · simpa only [changeStep, if_neg h] using hr

theorem foldl_changeStep_dvd (l : List Nat) (acc : List (Nat × Nat) × Nat)
    (hl : ∀ d ∈ l, 5 ∣ d) (hr : 5 ∣ acc.2) : 5 ∣ (l.foldl changeStep acc).2 := by
  induction l generalizing acc with
  | nil => exact hr
  | cons d rest ih =>
    rw [List.foldl_cons]
    exact ih _ (fun e he => hl e (List.mem_cons_of_mem d he))
      (changeStep_dvd acc d (hl d (List.mem_cons_self d rest)) hr)

theorem changeStep_five_lt (acc : List (Nat × Nat) × Nat) :
    (changeStep acc 5).2 < 5 := by
  by_cases h : 5 ≤ acc.2
  · simp only [changeStep, if_pos h]
    omega
  · simp only [changeStep, if_neg h]
    omega

/-- On any multiple of five cents the greedy loop terminates with zero
residue, so the breakdown sums exactly to the amount. -/
theorem changeSum_calculate_change_of_dvd (a : Nat) (h5 : 5 ∣ a) :
    changeSum (calculate_change a) = a := by
  have hsum := foldl_changeStep_sum DENOMS ([], a)
  have hdvd : 5 ∣ (DENOMS.foldl changeStep ([], a)).2 :=
    foldl_changeStep_dvd DENOMS ([], a) (by decide) h5
  have hlt : (DENOMS.foldl changeStep ([], a)).2 < 5 := by
    have hsplit : DENOMS = [10000, 5000, 2500, 2000, 1000, 500, 100, 50, 25, 10] ++ [5] := rfl
    rw [hsplit, List.foldl_append, List.foldl_cons, List.foldl_nil]
    exact changeStep_five_lt _
  have h0 : changeSum ([] : List (Nat × Nat)) = 0 := rfl
  rw [h0] at hsum
  unfold calculate_change
  omega

theorem changeSum_dvd_of_mem :
    ∀ l : List (Nat × Nat), (∀ p ∈ l, p.1 ∈ DENOMS) → 5 ∣ changeSum l := by
  intro l
  induction l with
  | nil => intro _; decide
  | cons p rest ih =>
    intro hmem
    have hall : ∀ d ∈ DENOMS, 5 ∣ d := by decide
    have hp : 5 ∣ p.1 := hall p.1 (hmem p (List.mem_cons_self p rest))
    have hrest : 5 ∣ changeSum rest := ih fun q hq => hmem q (List.mem_cons_of_mem p hq)
    simp only [changeSum, List.map_cons, List.sum_cons]
    exact Nat.dvd_add (Dvd.dvd.mul_right hp _) hrest

/-- Every configured denomination is a multiple of five cents, so every
representable amount is a multiple of five cents. -/
theorem representable_dvd (a : Nat) (h : Representable a) : 5 ∣ a := by
  obtain ⟨l, hmem, hsum⟩ := h
  exact hsum ▸ changeSum_dvd_of_mem l hmem

/-- For a positive denomination, the source's loop guard `remaining >= denom`
coincides with the spec's `record if count > 0`, so one source step equals
one spec step. -/
theorem greedyStepSpec_eq_changeStep (acc : List (Nat × Nat) × Nat) (d : Nat)
    (hd : 0 < d) : greedyStepSpec acc d = changeStep acc d := by
  by_cases h : d ≤ acc.2
  · have hc : 0 < acc.2 / d := Nat.div_pos h hd
    simp only [greedyStepSpec, changeStep, if_pos h, if_pos hc]
  · have hc : acc.2 / d = 0 := Nat.div_eq_of_lt (by omega)
    simp only [greedyStepSpec, changeStep, if_neg h, hc, Nat.zero_mul, Nat.sub_zero]
    simp

theorem foldl_greedyStepSpec_eq (l : List Nat) (acc : List (Nat × Nat) × Nat)
    (hl : ∀ d ∈ l, 0 < d) :
    l.foldl greedyStepSpec acc = l.foldl changeStep acc := by
  induction l generalizing acc with
  | nil => rfl
  | cons d rest ih =>
    rw [List.foldl_cons, List.foldl_cons,
      greedyStepSpec_eq_changeStep acc d (hl d (List.mem_cons_self d rest))]
    exact ih _ fun e he => hl e (List.mem_cons_of_mem d he)

theorem changeStep_pos (acc : List (Nat × Nat) × Nat) (d : Nat) (hd : 0 < d)
    (hacc : ∀ p ∈ acc.1, 0 < p.2) : ∀ p ∈ (changeStep acc d).1, 0 < p.2 := by
  by_cases h : d ≤ acc.2
  · simp only [changeStep, if_pos h]
    intro p hp
    rcases List.mem_append.1 hp with hmem | hmem
    · exact hacc p hmem
    · have : p = (d, acc.2 / d) := List.mem_singleton.1 hmem
      subst this
      exact Nat.div_pos h hd
  · simpa only [changeStep, if_neg h] using hacc

theorem foldl_changeStep_pos (l : List Nat) (acc : List (Nat × Nat) × Nat)
    (hl : ∀ d ∈ l, 0 < d) (hacc : ∀ p ∈ acc.1, 0 < p.2) :
    ∀ p ∈ (l.foldl changeStep acc).1, 0 < p.2 := by
  induction l generalizing acc with
  | nil => exact hacc
  | cons d rest ih =>
    rw [List.foldl_cons]
    exact ih _ (fun e he => hl e (List.mem_cons_of_mem d he))
      (changeStep_pos acc d (hl d (List.mem_cons_self d rest)) hacc)

/-! ## Data model: products, session state, transaction log -/

/-- A row of the `Product` table (`app.py` lines 23-28); `price` in cents. -/
structure Product where
  id : Int
  name : String
  type : String
  price : Int
  quantity : Int
deriving DecidableEq

/-- One `purchase_item` dict appended to `session['current_transaction']`
(`app.py` lines 125-131); money in cents. -/
structure PurchaseItem where
  product_id : Int
  name : String
  quantity : Int
  price : Int
  total : Int
deriving DecidableEq

/-- A `TransactionLog` row (`app.py` lines 30-40) as built by `log_transaction`
(lines 295-327).  The `date`/`time` wall-clock fields are elided; breakdown
dicts are insertion-ordered association lists; money in cents. -/
structure TransactionLog where
  amount_inserted_notes : List (Nat × Nat)
  amount_inserted_coins : List (Nat × Nat)
  change_returned_notes : List (Nat × Nat)
  change_returned_coins : List (Nat × Nat)
  total_amount : Nat
  change_amount : Int
  products_purchased : String
deriving DecidableEq

/-- The per-client session (`session[...]`, initialised at `app.py` lines 71-74)
together with the two persisted stores the ledger operations touch: the
product table and the append-only transaction log.
`denominationsInserted` maps a denomination (in cents) to its counter; the
Python dict has exactly the keys `str(d)` for `d` in `NOTES + COINS` and the
operations below only ever touch those keys. -/
structure VMState where
  products : List Product
  insertedMoney : Int
  denominationsInserted : Nat → Nat
  currentTransaction : List PurchaseItem
  transactions : List TransactionLog

/-- Lookup `Product.query.get(product_id)`: primary-key lookup, i.e. the first row
with the given id. -/
def getProduct : List Product → Int → Option Product
  | [], _ => none
  | p :: rest, pid => if p.id = pid then some p else getProduct rest pid

/-- In-place mutation of the row found by `Product.query.get`: replace the
first row with the given id. -/
def updateProduct : List Product → Int → (Product → Product) → List Product
  | [], _, _ => []
  | p :: rest, pid, f => if p.id = pid then f p :: rest else p :: updateProduct rest pid f

/-- The denominations whose dict key can ever equal `str(amount)` in
`insert_money` (`app.py` lines 89-91).  `amount` is a Python float, and
`str` of a finite float always carries a decimal point (`str(100.0) = '100.0'`),
while the keys of the integer denominations `100, 50, 25, 20, 10, 5, 1` are
the decimal-point-free strings `str(int)`.  Only the four float-literal coin
denominations `0.50, 0.25, 0.10, 0.05` (keys `'0.5', '0.25', '0.1', '0.05'`)
can match, and they match exactly the amounts of that value.  In cents: -/
def FRACTIONAL_COINS : List Nat := [50, 25, 10, 5]

/-- The session mutation of `insert_money` (`app.py` lines 84-93): the amount
(in cents; any value `float()` accepts) is added to the balance, and the
matching denomination counter — when the string key matches, see
`FRACTIONAL_COINS` — is incremented. -/
def insert_money (st : VMState) (amount : Int) : VMState :=
  { st with
    insertedMoney := st.insertedMoney + amount,
    denominationsInserted := fun d =>
      if d ∈ FRACTIONAL_COINS ∧ (d : Int) = amount then st.denominationsInserted d + 1
      else st.denominationsInserted d }

/-- Response of the `/insert_money` route: the JSON payload on success, or an
uncaught `ValueError` escaping the handler (there is no `try/except` in
`insert_money`, unlike `purchase`). -/
inductive InsertReply where
  | ok (inserted_money : Int)
  | uncaughtValueError
deriving DecidableEq

/-- The `/insert_money` route (`app.py` lines 83-98).  `none` models a form
value that `float()` rejects: the very first statement raises and nothing in
the route catches it, so no JSON payload is produced. -/
def insert_money_route (st : VMState) (amountRaw : Option Int) : VMState × InsertReply :=
  match amountRaw with
  | none => (st, .uncaughtValueError)
  | some amount =>
      let st' := insert_money st amount
      (st', .ok st'.insertedMoney)

/-- The session invariant of §3 of the spec:
`insertedMoney == sum(denominationCounts[d] * d for d in denominations)`. -/
def ledgerInvariant (st : VMState) : Prop :=
  st.insertedMoney =
    (DENOMS.map fun d : Nat => (d : Int) * (st.denominationsInserted d : Int)).sum

/-- The error kinds of the `/purchase` route, in source order of their checks
(`app.py` lines 102-118). -/
inductive PurchaseError where
  | invalidInput
  | invalidProduct
  | insufficientStock
  | insufficientFunds
deriving DecidableEq

/-- Response of the `/purchase` route: the JSON success payload
(`inserted_money`, `remaining_quantity`; the message string is elided) or a
400-status error payload. -/
inductive PurchaseReply where
  | ok (inserted_money : Int) (remaining_quantity : Int)
  | err (e : PurchaseError)
deriving DecidableEq

/-- The `/purchase` route (`app.py` lines 100-141).  `none` in an argument
models a form value `int()` rejects (the `try/except ValueError`).  Quantity
and product id are arbitrary Python ints: no positivity check exists. -/
def purchase (st : VMState) (productIdRaw quantityRaw : Option Int) :
    VMState × PurchaseReply :=
  match productIdRaw, quantityRaw with
  | some product_id, some quantity =>
      match getProduct st.products product_id with
      | none => (st, .err .invalidProduct)
      | some product =>
          if product.quantity < quantity then
            (st, .err .insufficientStock)
          else
            if st.insertedMoney < product.price * quantity then
              (st, .err .insufficientFunds)
            else
              ({ st with
                  products := updateProduct st.products product_id
                    fun p => { p with quantity := p.quantity - quantity },
                  insertedMoney := st.insertedMoney - product.price * quantity,
                  currentTransaction := st.currentTransaction ++
                    [{ product_id := product_id, name := product.name,
                       quantity := quantity, price := product.price,
                       total := product.price * quantity }] },
               .ok (st.insertedMoney - product.price * quantity)
                 (product.quantity - quantity))
  | _, _ => (st, .err .invalidInput)

/-- Function `log_transaction(change_breakdown)` (`app.py` lines 295-327): the row it
appends, built from the pre-reset session.  Notes are the denominations of at
least one rupee (100 cents); zero counters and zero-count breakdown entries
are filtered out; `total_amount` sums the inserted counters and
`change_amount` is the current balance. -/
def log_transaction_entry (st : VMState) (change_breakdown : List (Nat × Nat)) :
    TransactionLog where
  amount_inserted_notes :=
    (DENOMS.filter fun d => decide (100 ≤ d ∧ 0 < st.denominationsInserted d)).map
      fun d => (d, st.denominationsInserted d)
  amount_inserted_coins :=
    (DENOMS.filter fun d => decide (d < 100 ∧ 0 < st.denominationsInserted d)).map
      fun d => (d, st.denominationsInserted d)
  change_returned_notes := change_breakdown.filter fun p => decide (100 ≤ p.1 ∧ 0 < p.2)
  change_returned_coins := change_breakdown.filter fun p => decide (p.1 < 100 ∧ 0 < p.2)
  total_amount := (DENOMS.map fun d => d * st.denominationsInserted d).sum
  change_amount := st.insertedMoney
  products_purchased :=
    String.intercalate ", "
      (st.currentTransaction.map fun item => toString item.quantity ++ "x " ++ item.name)

/-- Response of the `/return_change` route: the success payload (the breakdown
message string is elided) or the `{'info': ...}` acknowledgment. -/
inductive ReturnReply where
  | success (change_amount : Int)
  | info
deriving DecidableEq

/-- The `/return_change` route (`app.py` lines 143-175).  With a positive
balance it logs a transaction capturing the inserted counters and the change
breakdown, then resets the session; with a non-positive balance it logs (with
an empty breakdown) only when the purchase list is non-empty — the Python
truthiness test `if session['current_transaction']` — and resets. -/
def return_change (st : VMState) : VMState × ReturnReply :=
  if 0 < st.insertedMoney then
    ({ products := st.products,
       insertedMoney := 0,
       denominationsInserted := fun _ => 0,
       currentTransaction := [],
       transactions := st.transactions ++
         [log_transaction_entry st (calculate_change st.insertedMoney.toNat)] },
     .success st.insertedMoney)
  else
    ({ products := st.products,
       insertedMoney := 0,
       denominationsInserted := fun _ => 0,
       currentTransaction := [],
       transactions :=
         if st.currentTransaction = [] then st.transactions
         else st.transactions ++ [log_transaction_entry st []] },
     .info)

/-- The sample catalog inserted by `create_tables` (`app.py` lines 48-55),
prices in cents. -/
def sample_products : List Product :=
  [⟨1, "sando", "cake", 1500, 10⟩,
   ⟨2, "lays", "cake", 2000, 8⟩,
   ⟨3, "m&m", "cake", 3000, 5⟩,
   ⟨4, "Coca Cola", "drink", 5000, 15⟩,
   ⟨5, "Sprite", "drink", 4500, 12⟩,
   ⟨6, "water", "drink", 2500, 10⟩]

/-- The session as initialised on first page visit (`app.py` lines 71-74),
over the sample catalog. -/
def initialState : VMState where
  products := sample_products
  insertedMoney := 0
  denominationsInserted := fun _ => 0
  currentTransaction := []
  transactions := []

/-! ## Helper lemmas about the product table -/

theorem getProduct_mem (ps : List Product) (pid : Int) (p : Product)
    (h : getProduct ps pid = some p) : p ∈ ps := by
  induction ps with
  | nil => exact absurd h (by simp [getProduct])
  | cons x rest ih =>
    by_cases hx : x.id = pid
    · simp only [getProduct, if_pos hx, Option.some.injEq] at h
      exact h ▸ List.mem_cons_self x rest
    · simp only [getProduct, if_neg hx] at h
      exact List.mem_cons_of_mem x (ih h)

theorem mem_updateProduct (ps : List Product) (pid : Int) (f : Product → Product)
    (q : Product) (hq : q ∈ updateProduct ps pid f) :
    q ∈ ps ∨ ∃ p, getProduct ps pid = some p ∧ q = f p := by
  induction ps with
  | nil => exact absurd hq (by simp [updateProduct])
  | cons x rest ih =>
    by_cases hx : x.id = pid
    · simp only [updateProduct, if_pos hx] at hq
      rcases List.mem_cons.1 hq with hfx | hmem
      · exact Or.inr ⟨x, by simp [getProduct, if_pos hx], hfx⟩
      · exact Or.inl (List.mem_cons_of_mem x hmem)
    · simp only [updateProduct, if_neg hx] at hq
      rcases List.mem_cons.1 hq with hqx | hmem
      · exact Or.inl (hqx ▸ List.mem_cons_self x rest)
      · rcases ih hmem with hmem' | ⟨p, hp, hqf⟩
        · exact Or.inl (List.mem_cons_of_mem x hmem')
        · exact Or.inr ⟨p, by simp [getProduct, if_neg hx, hp], hqf⟩

theorem getProduct_updateProduct (ps : List Product) (pid : Int) (f : Product → Product)
    (hf : ∀ q, (f q).id = q.id) (p : Product) (h : getProduct ps pid = some p) :
    getProduct (updateProduct ps pid f) pid = some (f p) := by
  induction ps with
  | nil => exact absurd h (by simp [getProduct])
  | cons x rest ih =>
    by_cases hx : x.id = pid
    · simp only [getProduct, if_pos hx, Option.some.injEq] at h
      subst h
      simp only [updateProduct, if_pos hx, getProduct]
      rw [if_pos ((hf x).trans hx)]
    · simp only [getProduct, if_neg hx] at h
      simp only [updateProduct, if_neg hx, getProduct, if_neg hx]
      exact ih h

/-! ## Claim theorems -/

/-- C1: for every non-negative amount expressible as a sum of the configured
denominations, the breakdown returned by `calculate_change` satisfies
`sum(denomination * count) == amount` — here exactly, which is stronger than
the claimed 0.01 tolerance. -/
theorem C1_calculate_change_exact (a : Nat) (h : Representable a) :
    changeSum (calculate_change a) = a :=
  changeSum_calculate_change_of_dvd a (representable_dvd a h)

theorem C1_calculate_change_exact_witness :
    changeSum (calculate_change 5500) = 5500 :=
  C1_calculate_change_exact 5500 ⟨[(5000, 1), (500, 1)], by decide, by decide⟩

/-- C2: `calculate_change` follows exactly the greedy procedure of §4.1: the
denomination order is strictly descending, the source loop computes the same
result as the spec's `count = floor(remaining/d); record if count > 0;
remaining = round(remaining - count*d, 2)` procedure, zero-count
denominations never appear in the breakdown, and `calculate_change 0 = []`. -/
theorem C2_calculate_change_follows_greedy_spec :
    DENOMS.Pairwise (· > ·) ∧
    (∀ a, calculate_change a = greedySpec a) ∧
    (∀ a, ∀ p ∈ calculate_change a, 0 < p.2) ∧
    calculate_change 0 = [] := by
  refine ⟨by decide, fun a => ?_, fun a => ?_, rfl⟩
  · unfold calculate_change greedySpec
    rw [foldl_greedyStepSpec_eq DENOMS ([], a) (by decide)]
  · exact foldl_changeStep_pos DENOMS ([], a) (by decide) (by simp)

theorem C2_calculate_change_follows_greedy_spec_witness :
    calculate_change 755 = greedySpec 755 ∧ 0 < ((500 : Nat), (1 : Nat)).2 :=
  ⟨C2_calculate_change_follows_greedy_spec.2.1 755,
   C2_calculate_change_follows_greedy_spec.2.2.1 755 (500, 1) (by decide)⟩

/-- C10: the amount 0.07 (7 cents) is not representable as a sum of the
configured denominations, and `calculate_change` returns a breakdown summing
to 0.05 — strictly less than the amount: the residue of 0.02, smaller than
the smallest denomination 0.05, is silently discarded. -/
theorem C10_calculate_change_discards_residue :
    ¬ Representable 7 ∧
    changeSum (calculate_change 7) = 5 ∧
    changeSum (calculate_change 7) < 7 := by
  refine ⟨fun h => ?_, by decide, by decide⟩
  have h5 := representable_dvd 7 h
  omega

/-- C3 counterexample: inserting Rs 3.00 (300 cents, accepted by the
operation) from the freshly initialised session adds to the balance but
matches no denomination key, so the §3 invariant
`insertedMoney == sum(denominationCounts[d] * d)` fails afterwards. -/
theorem C3_insert_money_breaks_invariant :
    ledgerInvariant initialState ∧
    ¬ ledgerInvariant (insert_money initialState 300) := by
  constructor
  · unfold ledgerInvariant
    decide
  · unfold ledgerInvariant
    decide

/-- C3 amended: the invariant is preserved only when the inserted amount's
string form matches a counter key, which happens exactly for the four
float-keyed coin denominations 0.50, 0.25, 0.10, 0.05 (`FRACTIONAL_COINS`);
for such an amount `insert_money` preserves the §3 session invariant. -/
theorem C3_insert_money_preserves_invariant_on_fractional_coins
    (st : VMState) (d : Nat) (hd : d ∈ FRACTIONAL_COINS)
    (h : ledgerInvariant st) : ledgerInvariant (insert_money st (d : Int)) := by
  fin_cases hd <;>
  · simp only [ledgerInvariant, insert_money] at h ⊢
    norm_num [DENOMS, NOTES, COINS, FRACTIONAL_COINS] at h ⊢
    omega

theorem C3_insert_money_preserves_invariant_witness :
    ledgerInvariant (insert_money initialState ((50 : Nat) : Int)) :=
  C3_insert_money_preserves_invariant_on_fractional_coins initialState 50
    (by decide) (by unfold ledgerInvariant; decide)

/-- C8 (evaluating the code at the failing input): the `/insert_money` route
has no `try/except`, so a malformed amount (`none`) escapes as an uncaught
`ValueError` and no structured payload is produced, while every well-formed
amount yields the `{insertedMoney, message}` payload. -/
theorem C8_insert_money_route_uncaught (st : VMState) :
    (insert_money_route st none).2 = InsertReply.uncaughtValueError ∧
    ∀ a : Int, (insert_money_route st (some a)).2 = InsertReply.ok (st.insertedMoney + a) :=
  ⟨rfl, fun _ => rfl⟩

/-- C4: the purchase operation checks, in order: invalid numeric input,
unknown product (`InvalidProduct`), insufficient stock (when
`quantity > product.quantity`), insufficient funds (when
`insertedMoney < price*quantity`); every failure leaves the state untouched,
and success decrements the product's stock by `quantity`, decrements
`insertedMoney` by `price*quantity` and appends one purchase-line record. -/
theorem C4_purchase_contract (st : VMState) (pid qty : Int) :
    purchase st none (some qty) = (st, .err .invalidInput) ∧
    purchase st (some pid) none = (st, .err .invalidInput) ∧
    purchase st none none = (st, .err .invalidInput) ∧
    (getProduct st.products pid = none →
      purchase st (some pid) (some qty) = (st, .err .invalidProduct)) ∧
    ∀ p, getProduct st.products pid = some p →
      (p.quantity < qty →
        purchase st (some pid) (some qty) = (st, .err .insufficientStock)) ∧
      (qty ≤ p.quantity → st.insertedMoney < p.price * qty →
        purchase st (some pid) (some qty) = (st, .err .insufficientFunds)) ∧
      (qty ≤ p.quantity → p.price * qty ≤ st.insertedMoney →
        (purchase st (some pid) (some qty)).2 =
          .ok (st.insertedMoney - p.price * qty) (p.quantity - qty) ∧
        (purchase st (some pid) (some qty)).1.insertedMoney =
          st.insertedMoney - p.price * qty ∧
        getProduct (purchase st (some pid) (some qty)).1.products pid =
          some { p with quantity := p.quantity - qty } ∧
        (purchase st (some pid) (some qty)).1.currentTransaction =
          st.currentTransaction ++
            [{ product_id := pid, name := p.name, quantity := qty,
               price := p.price, total := p.price * qty }]) := by
  refine ⟨rfl, rfl, rfl, fun h => ?_, fun p hp => ?_⟩
  · simp only [purchase, h]
  · refine ⟨fun h1 => ?_, fun h1 h2 => ?_, fun h1 h2 => ?_⟩
    · simp only [purchase, hp, if_pos h1]
    · simp only [purchase, hp, if_neg (not_lt.2 h1), if_pos (not_le.1 (fun hc => absurd h2 (not_lt.2 hc)))]
    · have hres : purchase st (some pid) (some qty) =
          ({ st with
              products := updateProduct st.products pid
                fun r => { r with quantity := r.quantity - qty },
              insertedMoney := st.insertedMoney - p.price * qty,
              currentTransaction := st.currentTransaction ++
                [{ product_id := pid, name := p.name, quantity := qty,
                   price := p.price, total := p.price * qty }] },
           .ok (st.insertedMoney - p.price * qty) (p.quantity - qty)) := by
        simp only [purchase, hp, if_neg (not_lt.2 h1), if_neg (not_lt.2 h2)]
      rw [hres]
      exact ⟨rfl, rfl,
        getProduct_updateProduct st.products pid
          (fun r => { r with quantity := r.quantity - qty }) (fun r => rfl) p hp,
        rfl⟩

theorem C4_purchase_contract_witness :
    (purchase { initialState with insertedMoney := 10000 } (some 1) (some 2)).2 =
      PurchaseReply.ok 7000 8 :=
  (((C4_purchase_contract { initialState with insertedMoney := 10000 } 1 2).2.2.2.2
      ⟨1, "sando", "cake", 1500, 10⟩ rfl).2.2 (by decide) (by decide)).1

/-- C5: from any state with non-negative stock levels and a non-negative
balance, the purchase operation — succeeding or failing — never drives any
product's stock or the inserted balance below zero. -/
theorem C5_purchase_preserves_nonneg (st : VMState) (pidRaw qtyRaw : Option Int)
    (hq : ∀ p ∈ st.products, 0 ≤ p.quantity) (hm : 0 ≤ st.insertedMoney) :
    (∀ p ∈ (purchase st pidRaw qtyRaw).1.products, 0 ≤ p.quantity) ∧
      0 ≤ (purchase st pidRaw qtyRaw).1.insertedMoney := by
  match pidRaw, qtyRaw with
  | none, none => exact ⟨hq, hm⟩
  | none, some _ => exact ⟨hq, hm⟩
  | some _, none => exact ⟨hq, hm⟩
  | some pid, some qty =>
    cases hg : getProduct st.products pid with
    | none => simp only [purchase, hg]; exact ⟨hq, hm⟩
    | some p =>
      by_cases h1 : p.quantity < qty
      · simp only [purchase, hg, if_pos h1]; exact ⟨hq, hm⟩
      · by_cases h2 : st.insertedMoney < p.price * qty
        · simp only [purchase, hg, if_neg h1, if_pos h2]; exact ⟨hq, hm⟩
        · simp only [purchase, hg, if_neg h1, if_neg h2]
          constructor
          · intro q hqmem
            rcases mem_updateProduct st.products pid _ q hqmem with hmem | ⟨r, hr, hqf⟩
            · exact hq q hmem
            · rw [hg] at hr
              cases hr
              subst hqf
              simpa using sub_nonneg.2 (not_lt.1 h1)
          · exact sub_nonneg.2 (not_lt.1 h2)

theorem C5_purchase_preserves_nonneg_witness :
    0 ≤ (purchase initialState (some 1) (some 2)).1.insertedMoney :=
  (C5_purchase_preserves_nonneg initialState (some 1) (some 2)
    (by decide) (by decide)).2

/-- C9: no positivity check exists on the quantity: for an existing product
with non-negative stock and price and a non-negative balance, a negative
quantity passes both guards, so the purchase succeeds, increasing the
product's stock by `|quantity|` and the balance by `price * |quantity|`. -/
theorem C9_purchase_negative_quantity_succeeds (st : VMState) (pid qty : Int)
    (p : Product) (hp : getProduct st.products pid = some p)
    (hpq : 0 ≤ p.quantity) (hpp : 0 ≤ p.price) (hm : 0 ≤ st.insertedMoney)
    (hq : qty < 0) :
    (purchase st (some pid) (some qty)).2 =
      .ok (st.insertedMoney + p.price * (-qty)) (p.quantity + (-qty)) ∧
    (purchase st (some pid) (some qty)).1.insertedMoney =
      st.insertedMoney + p.price * (-qty) ∧
    getProduct (purchase st (some pid) (some qty)).1.products pid =
      some { p with quantity := p.quantity + (-qty) } := by
  have h1 : ¬ p.quantity < qty := by omega
  have hnn : 0 ≤ p.price * (-qty) := mul_nonneg hpp (by omega)
  have h2 : ¬ st.insertedMoney < p.price * qty := by
    have : p.price * qty = -(p.price * (-qty)) := by ring
    rw [this]
    omega
  have e1 : st.insertedMoney - p.price * qty = st.insertedMoney + p.price * (-qty) := by
    ring
  have e2 : p.quantity - qty = p.quantity + (-qty) := by ring
  have hres : purchase st (some pid) (some qty) =
      ({ st with
          products := updateProduct st.products pid
            fun r => { r with quantity := r.quantity - qty },
          insertedMoney := st.insertedMoney - p.price * qty,
          currentTransaction := st.currentTransaction ++
            [{ product_id := pid, name := p.name, quantity := qty,
               price := p.price, total := p.price * qty }] },
       .ok (st.insertedMoney - p.price * qty) (p.quantity - qty)) := by
    simp only [purchase, hp, if_neg h1, if_neg h2]
  rw [hres, ← e1, ← e2]
  exact ⟨rfl, rfl,
    getProduct_updateProduct st.products pid
      (fun r => { r with quantity := r.quantity - qty }) (fun r => rfl) p hp⟩

theorem C9_purchase_negative_quantity_witness :
    (purchase initialState (some 1) (some (-2))).2 = PurchaseReply.ok 3000 12 ∧
    (purchase initialState (some 1) (some (-2))).1.insertedMoney = 3000 ∧
    getProduct (purchase initialState (some 1) (some (-2))).1.products 1 =
      some ⟨1, "sando", "cake", 1500, 12⟩ :=
  C9_purchase_negative_quantity_succeeds initialState 1 (-2)
    ⟨1, "sando", "cake", 1500, 10⟩ rfl (by decide) (by decide) (by decide) (by decide)

/-- A session holding Rs 55 (one Rs 50 note recorded is impossible — see
`FRACTIONAL_COINS` — so the counters here record ten 0.50 coins and an
untracked rest), used to exercise the positive-balance branch. -/
def stChange : VMState :=
  { initialState with
      insertedMoney := 5500,
      denominationsInserted := fun d => if d = 50 then 10 else 0 }

/-- A session after a cash-exact purchase: zero balance, one purchase line. -/
def stExact : VMState :=
  { initialState with
      currentTransaction :=
        [{ product_id := 1, name := "sando", quantity := 1, price := 1500, total := 1500 }] }

/-- C6: after every call to `return_change` the balance is zero, every
denomination counter is zero and the purchase list is empty; when the balance
was positive, one transaction-log entry is appended whose fields capture the
pre-reset inserted-denomination counters and the change breakdown computed by
`calculate_change` on the pre-reset balance. -/
theorem C6_return_change_resets (st : VMState) :
    (return_change st).1.insertedMoney = 0 ∧
    (∀ d, (return_change st).1.denominationsInserted d = 0) ∧
    (return_change st).1.currentTransaction = [] ∧
    (0 < st.insertedMoney →
      (return_change st).1.transactions =
        st.transactions ++
          [log_transaction_entry st (calculate_change st.insertedMoney.toNat)] ∧
      (log_transaction_entry st (calculate_change st.insertedMoney.toNat)).change_amount =
        st.insertedMoney ∧
      (log_transaction_entry st
          (calculate_change st.insertedMoney.toNat)).amount_inserted_notes =
        (DENOMS.filter fun d => decide (100 ≤ d ∧ 0 < st.denominationsInserted d)).map
          (fun d => (d, st.denominationsInserted d)) ∧
      (log_transaction_entry st
          (calculate_change st.insertedMoney.toNat)).amount_inserted_coins =
        (DENOMS.filter fun d => decide (d < 100 ∧ 0 < st.denominationsInserted d)).map
          (fun d => (d, st.denominationsInserted d)) ∧
      (log_transaction_entry st
          (calculate_change st.insertedMoney.toNat)).change_returned_notes =
        (calculate_change st.insertedMoney.toNat).filter
          (fun p => decide (100 ≤ p.1 ∧ 0 < p.2)) ∧
      (log_transaction_entry st
          (calculate_change st.insertedMoney.toNat)).change_returned_coins =
        (calculate_change st.insertedMoney.toNat).filter
          (fun p => decide (p.1 < 100 ∧ 0 < p.2))) := by
  by_cases h : 0 < st.insertedMoney
  · have hres : return_change st =
        ({ products := st.products,
           insertedMoney := 0,
           denominationsInserted := fun _ => 0,
           currentTransaction := [],
           transactions := st.transactions ++
             [log_transaction_entry st (calculate_change st.insertedMoney.toNat)] },
         .success st.insertedMoney) := by
      rw [return_change, if_pos h]
    rw [hres]
    refine ⟨rfl, fun d => rfl, rfl, fun _ => ?_⟩
    refine ⟨?_, ?_, ?_, ?_, ?_, ?_⟩ <;>
      simp only [log_transaction_entry]
  · have hres : return_change st =
        ({ products := st.products,
           insertedMoney := 0,
           denominationsInserted := fun _ => 0,
           currentTransaction := [],
           transactions :=
             if st.currentTransaction = [] then st.transactions
             else st.transactions ++ [log_transaction_entry st []] },
         .info) := by
      rw [return_change, if_neg h]
    rw [hres]
    exact ⟨rfl, fun d => rfl, rfl, fun hc => absurd hc h⟩

theorem C6_return_change_resets_witness :
    (return_change stChange).1.transactions =
      stChange.transactions ++
        [log_transaction_entry stChange (calculate_change stChange.insertedMoney.toNat)] ∧
    (log_transaction_entry stChange
        (calculate_change stChange.insertedMoney.toNat)).change_amount =
      stChange.insertedMoney :=
  ⟨((C6_return_change_resets stChange).2.2.2 (by decide)).1,
   ((C6_return_change_resets stChange).2.2.2 (by decide)).2.1⟩

/-- C7: with a zero balance, `return_change` still appends a log entry — with
an empty change breakdown — when purchases exist, and appends nothing,
returning only the informational acknowledgment, when no purchases exist. -/
theorem C7_return_change_zero_money (st : VMState) (h : st.insertedMoney = 0) :
    (st.currentTransaction ≠ [] →
      (return_change st).1.transactions =
        st.transactions ++ [log_transaction_entry st []] ∧
      (log_transaction_entry st []).change_returned_notes = [] ∧
      (log_transaction_entry st []).change_returned_coins = [] ∧
      (return_change st).2 = .info) ∧
    (st.currentTransaction = [] →
      (return_change st).1.transactions = st.transactions ∧
      (return_change st).2 = .info) := by
  have h0 : ¬ 0 < st.insertedMoney := by omega
  constructor
  · intro hne
    have hres : return_change st =
        ({ products := st.products,
           insertedMoney := 0,
           denominationsInserted := fun _ => 0,
           currentTransaction := [],
           transactions := st.transactions ++ [log_transaction_entry st []] },
         .info) := by
      rw [return_change, if_neg h0, if_neg hne]
    rw [hres]
    exact ⟨rfl, rfl, rfl, rfl⟩
  · intro he
    have hres : return_change st =
        ({ products := st.products,
           insertedMoney := 0,
           denominationsInserted := fun _ => 0,
           currentTransaction := [],
           transactions := st.transactions },
         .info) := by
      rw [return_change, if_neg h0, if_pos he]
    rw [hres]
    exact ⟨rfl, rfl⟩

theorem C7_return_change_zero_money_witness :
    (return_change stExact).1.transactions =
      stExact.transactions ++ [log_transaction_entry stExact []] ∧
    (log_transaction_entry stExact []).change_returned_notes = [] ∧
    (log_transaction_entry stExact []).change_returned_coins = [] ∧
    (return_change stExact).2 = ReturnReply.info :=
  (C7_return_change_zero_money stExact rfl).1 (by decide)

end VendingMachine
